import Mathlib

/-!
Shallow embedding of the vibration signal analysis engine of the
suratech sensor frontend, together with proofs of the specified
properties.  JavaScript numbers are idealised as real numbers.
-/

namespace Vibration

/-- Static sampling rate in Hz, the constant SAMPLING_RATE of the source. -/
def SAMPLING_RATE : ℝ := 50.0

/-- Sensitivity lookup of adcToAccelerationG: the switch on the range
argument, cases 2, 4, 8, 16 with a default falling back to the 2G value. -/
noncomputable def sensitivityOf (range : ℝ) : ℝ :=
  if range = 2 then 17367
  else if range = 4 then 8684
  else if range = 8 then 4342
  else if range = 16 then 2171
  else 17367

/-- Conversion of a raw ADC sample to acceleration in G, function
adcToAccelerationG of the source.  The source takes range as an optional
argument defaulting to 2; call sites that omit it are embedded passing 2. -/
noncomputable def adcToAccelerationG (adcValue : ℝ) (range : ℝ) : ℝ :=
  (adcValue - 512) / sensitivityOf range

/-- Conversion from G to mm per second squared, function
accelerationGToMmPerSecSquared of the source. -/
noncomputable def accelerationGToMmPerSecSquared (accelerationG : ℝ) : ℝ :=
  accelerationG * 9806.65

/-- Loop of accelerationToVelocity: given the cumulative velocity so far,
emit the cumulative trapezoidal sums over consecutive pairs of the list. -/
noncomputable def accVel (dt prev : ℝ) : List ℝ → List ℝ
  | [] => []
  | [_] => []
  | a0 :: a1 :: rest =>
      (prev + 0.5 * dt * (a0 + a1)) :: accVel dt (prev + 0.5 * dt * (a0 + a1)) (a1 :: rest)

/-- Trapezoidal integration of an acceleration series, function
accelerationToVelocity of the source: the output starts at 0 and each
further sample adds the increment 0.5 * dt * (a[i] + a[i+1]). -/
noncomputable def accelerationToVelocity (accelerations : List ℝ) (timeInterval : ℝ) : List ℝ :=
  0 :: accVel timeInterval 0 accelerations

/-- Padded transform size of calculateFFT: the source computes
Math.pow(2, Math.ceil(Math.log2(n))), which is 0 for n = 0 and otherwise
the smallest power of two that is at least n. -/
def nextPow2 (n : ℕ) : ℕ :=
  if n = 0 then 0 else 2 ^ Nat.clog 2 n

/-- Modelled from the spec: bin k of the real-input discrete Fourier
transform of size N that fft.js realTransform (an external dependency,
not under src/) writes into the output buffer, per spec section 4.3
step 3 ("producing paddedLength complex bins").  The pair is (real
part, imaginary part).  No claim below depends on the numeric value of
a bin, only on the magnitude/bin relation, counts and frequencies. -/
noncomputable def dftBin (x : List ℝ) (N k : ℕ) : ℝ × ℝ :=
  (∑ j ∈ Finset.range N, x.getD j 0 * Real.cos (2 * Real.pi * j * k / N),
   -∑ j ∈ Finset.range N, x.getD j 0 * Real.sin (2 * Real.pi * j * k / N))

/-- FFT of a time series, function calculateFFT of the source.  The fft.js
constructor new FFT(size) (external dependency) rejects a size that is at
most 1 or not a power of two ("FFT size must be a power of two and bigger
than 1"); the embedding returns none exactly when that guard fires, i.e.
when the source throws.  Otherwise the input is zero padded to the
transform size and the first timeData.length bins are converted to
magnitude (2.56 / n) * |bin| and frequency i * SAMPLING_RATE / n. -/
noncomputable def calculateFFT (timeData : List ℝ) :
    Option (List ℝ × List ℝ) :=
  let size := nextPow2 timeData.length
  if size ≤ 1 ∨ size &&& (size - 1) ≠ 0 then none
  else
    let input := timeData ++ List.replicate (size - timeData.length) 0
    let n := timeData.length
    some
      ((List.range n).map fun i : ℕ =>
        2.56 / (n : ℝ) * Real.sqrt ((dftBin input size i).1 ^ 2 + (dftBin input size i).2 ^ 2),
       (List.range n).map fun i : ℕ => (i : ℝ) * SAMPLING_RATE / (n : ℝ))

/-- Modelled from the spec: JavaScript Number.prototype.toFixed (runtime
built-in, not under src/), fixed-point decimal rendering with the given
number of digits after the point.  Rounding of the exact binary double is
idealised as rounding the real value half up; no claim depends on the tie
behaviour. -/
noncomputable def toFixed (digits : ℕ) (x : ℝ) : String :=
  let p : ℕ := 10 ^ digits
  let scaled : ℤ := ⌊x * p + 1 / 2⌋
  let sign : String := if scaled < 0 then "-" else ""
  let intPart : ℕ := scaled.natAbs / p
  let fracPart : ℕ := scaled.natAbs % p
  let fracStr : String := Nat.repr fracPart
  let padded : String := String.mk (List.replicate (digits - fracStr.length) '0') ++ fracStr
  if digits = 0 then sign ++ Nat.repr intPart else sign ++ Nat.repr intPart ++ "." ++ padded

/-- Entry of the topPeaks table built by prepareChartData: the bin
magnitude, the derived rms rendered with toFixed 2, and the bin frequency.
The source wraps the frequency in a String(...) conversion for display;
the embedding keeps the numeric value. -/
structure TopPeak where
  peak : ℝ
  rms : String
  frequency : ℝ

/-- Insertion of an index into a list already sorted by non-increasing
key: the index is placed before the first entry of strictly smaller key,
hence after every earlier entry of equal key. -/
noncomputable def insertIdxDesc (key : ℕ → ℝ) (x : ℕ) : List ℕ → List ℕ
  | [] => [x]
  | y :: ys => if key y < key x then x :: y :: ys else y :: insertIdxDesc key x ys

/-- Stable sort by non-increasing key, the embedding of the JavaScript
sort((a, b) => key[b] - key[a]) over the index array: ECMAScript sort is
stable and, for this comparator, orders by non-increasing key, which a
left fold of stable insertions reproduces. -/
noncomputable def sortIdxDesc (key : ℕ → ℝ) (l : List ℕ) : List ℕ :=
  l.foldl (fun acc x => insertIdxDesc key x acc) []

/-- Top peak extraction of prepareChartData: drop the DC bin from both
arrays, and if any bin remains take the first five indices of the stable
magnitude-descending sort of all remaining indices, reporting for each
its magnitude, toFixed 2 of magnitude * 0.707, and its frequency.  The
red point highlighting done alongside in the source is display only and
not modelled. -/
noncomputable def topPeaksOf (magnitude frequency : List ℝ) : List TopPeak :=
  let freqLabels := frequency.drop 1
  let freqMagnitude := magnitude.drop 1
  if 0 < freqMagnitude.length then
    let topIndices :=
      (sortIdxDesc (fun i => freqMagnitude.getD i 0) (List.range freqMagnitude.length)).take 5
    topIndices.map fun idx =>
      { peak := freqMagnitude.getD idx 0
        rms := toFixed 2 (freqMagnitude.getD idx 0 * 0.707)
        frequency := freqLabels.getD idx 0 }
  else []

/-- Overall RMS of prepareChartData: the square root of the mean of the
squared samples, guarded by the length-positivity ternary of the source. -/
noncomputable def overallRms (processedData : List ℝ) : ℝ :=
  if 0 < processedData.length then
    Real.sqrt ((processedData.foldl (fun sum val => sum + val * val) 0) / processedData.length)
  else 0

/-- Overall peak of prepareChartData, rms / 0.707. -/
noncomputable def overallPeak (processedData : List ℝ) : ℝ :=
  overallRms processedData / 0.707

/-- Overall peak-to-peak of prepareChartData, peak * 2. -/
noncomputable def overallPeakToPeak (processedData : List ℝ) : ℝ :=
  overallPeak processedData * 2

/-- Analytic content of the record returned by prepareChartData: the
formatted overall statistics, the top peak table, the axis label, the
processed series and the spectrum arrays feeding the charts.  The purely
visual chart.js styling fields of the source are not modelled. -/
structure ChartResult where
  rmsValue : String
  peakValue : String
  peakToPeakValue : String
  topPeaks : List TopPeak
  yAxisLabel : String
  processedData : List ℝ
  freqLabels : List ℝ
  freqMagnitude : List ℝ

/-- Chart data preparation, function prepareChartData of the source.  The
empty-input branch returns the fallback record with "0.000" statistics.
Otherwise the raw ADC series is converted according to the selected unit
(the adcToAccelerationG call sites use the default range 2), statistics
are computed, and the FFT of the processed series feeds the frequency
chart and the top peak table.  The result is none exactly when the
calculateFFT call throws in the source. -/
noncomputable def prepareChartData (rawAxisData : List ℝ) (selectedUnit : String)
    (timeInterval : ℝ) : Option ChartResult :=
  if rawAxisData.length = 0 then
    some
      { rmsValue := "0.000", peakValue := "0.000", peakToPeakValue := "0.000"
        topPeaks := [], yAxisLabel := "No Data"
        processedData := [], freqLabels := [], freqMagnitude := [] }
  else
    let processedData :=
      if selectedUnit = "Acceleration (G)" then
        rawAxisData.map fun adc => adcToAccelerationG adc 2
      else if selectedUnit = "Acceleration (mm/s²)" then
        rawAxisData.map fun adc => accelerationGToMmPerSecSquared (adcToAccelerationG adc 2)
      else
        accelerationToVelocity
          (rawAxisData.map fun adc => accelerationGToMmPerSecSquared (adcToAccelerationG adc 2))
          timeInterval
    let yAxisLabel :=
      if selectedUnit = "Acceleration (G)" then "G"
      else if selectedUnit = "Acceleration (mm/s²)" then "mm/s²"
      else "mm/s"
    match calculateFFT processedData with
    | none => none
    | some (magnitude, frequency) =>
      if magnitude.length = 0 ∨ frequency.length = 0 then
        some
          { rmsValue := toFixed 3 (overallRms processedData)
            peakValue := toFixed 3 (overallPeak processedData)
            peakToPeakValue := toFixed 3 (overallPeakToPeak processedData)
            topPeaks := [], yAxisLabel := yAxisLabel
            processedData := processedData, freqLabels := [], freqMagnitude := [] }
      else
        some
          { rmsValue := toFixed 3 (overallRms processedData)
            peakValue := toFixed 3 (overallPeak processedData)
            peakToPeakValue := toFixed 3 (overallPeakToPeak processedData)
            topPeaks := topPeaksOf magnitude frequency, yAxisLabel := yAxisLabel
            processedData := processedData
            freqLabels := frequency.drop 1, freqMagnitude := magnitude.drop 1 }

/-- Discrete severity level of the status ternaries of the source. -/
inductive SeverityLevel where
  | Normal
  | Warning
  | Critical
deriving DecidableEq, Repr

/-- Rank of a severity level under the ordering Normal, Warning, Critical. -/
def SeverityLevel.rank : SeverityLevel → ℕ
  | .Normal => 0
  | .Warning => 1
  | .Critical => 2

/-- Severity classification: the ternary
value > crit ? "Critical" : value > warn ? "Warning" : "Normal" that the
source repeats inline, abstracted over the two thresholds its call sites
supply (0.5 and 0.8 for the vibration rms status, alarm-derived values
for the temperature status). -/
noncomputable def classify (value warnThreshold critThreshold : ℝ) : SeverityLevel :=
  if critThreshold < value then .Critical
  else if warnThreshold < value then .Warning
  else .Normal

/-- Vibration severity status of the sensor detail pages:
rmsTotal > 0.8 ? "Critical" : rmsTotal > 0.5 ? "Warning" : "Normal". -/
noncomputable def vibrationSeverity (rmsTotal : ℝ) : SeverityLevel :=
  if 0.8 < rmsTotal then .Critical
  else if 0.5 < rmsTotal then .Warning
  else .Normal

lemma sensitivityOf_pos (range : ℝ) : 0 < sensitivityOf range := by
  unfold sensitivityOf
  split_ifs <;> norm_num

/-- Claim C6: adcToAccelerationG returns (adc - 512) / sensitivity(range)
with sensitivity 2 to 17367, 4 to 8684, 8 to 4342, 16 to 2171, any other
range falling back to 17367; it is total, affine with positive slope and
strictly monotone in the ADC value for a fixed range, and returns 0 at
ADC value 512 for every range. -/
theorem adcToAccelerationG_spec :
    (∀ adc range : ℝ, adcToAccelerationG adc range = (adc - 512) / sensitivityOf range)
    ∧ sensitivityOf 2 = 17367 ∧ sensitivityOf 4 = 8684
    ∧ sensitivityOf 8 = 4342 ∧ sensitivityOf 16 = 2171
    ∧ (∀ range : ℝ, range ≠ 2 → range ≠ 4 → range ≠ 8 → range ≠ 16 →
        sensitivityOf range = 17367)
    ∧ (∀ range : ℝ, adcToAccelerationG 512 range = 0)
    ∧ (∀ range a b : ℝ, a < b →
        adcToAccelerationG a range < adcToAccelerationG b range)
    ∧ (∀ range : ℝ, ∃ slope intercept : ℝ, 0 < slope ∧
        ∀ v : ℝ, adcToAccelerationG v range = slope * v + intercept) := by
  refine ⟨fun adc range => rfl, by norm_num [sensitivityOf], by norm_num [sensitivityOf],
    by norm_num [sensitivityOf], by norm_num [sensitivityOf], ?_, ?_, ?_, ?_⟩
  · intro range h2 h4 h8 h16
    simp [sensitivityOf, h2, h4, h8, h16]
  · intro range
    simp [adcToAccelerationG]
  · intro range a b hab
    unfold adcToAccelerationG
    exact div_lt_div_of_pos_right (by linarith) (sensitivityOf_pos range)
  · intro range
    have hs := sensitivityOf_pos range
    refine ⟨1 / sensitivityOf range, -512 / sensitivityOf range, by positivity, ?_⟩
    intro v
    unfold adcToAccelerationG
    field_simp
    ring

/-- Witness for claim C6 at concrete inputs. -/
theorem adcToAccelerationG_spec_witness :
    adcToAccelerationG 512 4 = 0
    ∧ adcToAccelerationG 500 2 < adcToAccelerationG 600 2
    ∧ sensitivityOf 3 = 17367 := by
  obtain ⟨-, -, -, -, -, hdef, hzero, hmono, -⟩ := adcToAccelerationG_spec
  exact ⟨hzero 4, hmono 2 500 600 (by norm_num),
    hdef 3 (by norm_num) (by norm_num) (by norm_num) (by norm_num)⟩

/-- Claim C7: for thresholds warn < crit the severity ternary returns
Critical when value > crit, else Warning when value > warn, else Normal;
a value equal to a threshold stays in the lower band; and the scenario
values 6, 9, 1 against thresholds 5 and 8 classify as Warning, Critical
and Normal. -/
theorem classify_spec :
    (∀ value warn crit : ℝ, warn < crit →
      (crit < value → classify value warn crit = SeverityLevel.Critical)
      ∧ (value ≤ crit → warn < value → classify value warn crit = SeverityLevel.Warning)
      ∧ (value ≤ warn → classify value warn crit = SeverityLevel.Normal)
      ∧ classify crit warn crit ≠ SeverityLevel.Critical
      ∧ classify warn warn crit = SeverityLevel.Normal)
    ∧ classify 6 5 8 = SeverityLevel.Warning
    ∧ classify 9 5 8 = SeverityLevel.Critical
    ∧ classify 1 5 8 = SeverityLevel.Normal := by
  refine ⟨?_, by norm_num [classify], by norm_num [classify], by norm_num [classify]⟩
  intro value warn crit hwc
  refine ⟨?_, ?_, ?_, ?_, ?_⟩
  · intro h
    simp [classify, h]
  · intro h1 h2
    simp [classify, not_lt.mpr h1, h2]
  · intro h
    simp [classify, not_lt.mpr (h.trans hwc.le), not_lt.mpr h]
  · simp only [classify, lt_self_iff_false, if_false]
    rw [if_pos hwc]
    decide
  · simp [classify, not_lt.mpr hwc.le, lt_irrefl]

/-- Witness for claim C7 at concrete inputs. -/
theorem classify_spec_witness :
    classify 5 5 8 = SeverityLevel.Normal
    ∧ classify 10 5 8 = SeverityLevel.Critical := by
  refine ⟨(classify_spec.1 5 5 8 (by norm_num)).2.2.2.2, ?_⟩
  exact (classify_spec.1 10 5 8 (by norm_num)).1 (by norm_num)

/-- Claim C10: the deployed vibration severity status (thresholds 0.5 and
0.8) is monotone in the classified rms value under the ordering
Normal < Warning < Critical. -/
theorem vibrationSeverity_monotone :
    (SeverityLevel.rank SeverityLevel.Normal < SeverityLevel.rank SeverityLevel.Warning
      ∧ SeverityLevel.rank SeverityLevel.Warning < SeverityLevel.rank SeverityLevel.Critical)
    ∧ ∀ v1 v2 : ℝ, v1 ≤ v2 →
        SeverityLevel.rank (vibrationSeverity v1) ≤ SeverityLevel.rank (vibrationSeverity v2) := by
  refine ⟨⟨by decide, by decide⟩, ?_⟩
  intro v1 v2 h
  unfold vibrationSeverity
  split_ifs <;> first | decide | (exfalso; linarith)

/-- Witness for claim C10 at concrete inputs. -/
theorem vibrationSeverity_monotone_witness :
    SeverityLevel.rank (vibrationSeverity 0.3) ≤ SeverityLevel.rank (vibrationSeverity 0.9) :=
  vibrationSeverity_monotone.2 0.3 0.9 (by norm_num)

lemma accVel_length (dt : ℝ) : ∀ (l : List ℝ) (prev : ℝ),
    (accVel dt prev l).length = l.length - 1
  | [], _ => rfl
  | [_], _ => rfl
  | a0 :: a1 :: rest, prev => by
    rw [accVel]
    simp only [List.length_cons, accVel_length dt (a1 :: rest)]
    omega

lemma accVel_getD (dt : ℝ) : ∀ (l : List ℝ) (prev : ℝ) (i : ℕ), i + 1 < l.length →
    (prev :: accVel dt prev l).getD (i + 1) 0
      = (prev :: accVel dt prev l).getD i 0 + 0.5 * dt * (l.getD i 0 + l.getD (i + 1) 0)
  | [], _, _, h => by simp at h
  | [_], _, _, h => by simp at h
  | a0 :: a1 :: rest, prev, 0, _ => by
    rw [accVel]
    simp [List.getD_cons_succ, List.getD_cons_zero]
  | a0 :: a1 :: rest, prev, i + 1, h => by
    have ih := accVel_getD dt (a1 :: rest) (prev + 0.5 * dt * (a0 + a1)) i
      (by simp only [List.length_cons] at h ⊢; omega)
    rw [accVel]
    simpa [List.getD_cons_succ] using ih

/-- Claim C5: for an acceleration series of length at least 2 the
trapezoidal integration returns a series of equal length starting at 0
in which each further element adds 0.5 * dt * (a[i] + a[i+1]); any input
of length below 2, the empty series included, yields exactly [0]. -/
theorem accelerationToVelocity_spec :
    (∀ (a : List ℝ) (dt : ℝ), 2 ≤ a.length →
      (accelerationToVelocity a dt).length = a.length
      ∧ (accelerationToVelocity a dt).getD 0 0 = 0
      ∧ ∀ i : ℕ, i + 1 < a.length →
          (accelerationToVelocity a dt).getD (i + 1) 0
            = (accelerationToVelocity a dt).getD i 0
              + 0.5 * dt * (a.getD i 0 + a.getD (i + 1) 0))
    ∧ ∀ (a : List ℝ) (dt : ℝ), a.length < 2 → accelerationToVelocity a dt = [0] := by
  constructor
  · intro a dt h
    refine ⟨?_, rfl, ?_⟩
    · simp only [accelerationToVelocity, List.length_cons, accVel_length]
      omega
    · intro i hi
      exact accVel_getD dt a 0 i hi
  · intro a dt h
    match a with
    | [] => rw [accelerationToVelocity, accVel]
    | [x] => rw [accelerationToVelocity, accVel]
    | x :: y :: rest =>
      simp only [List.length_cons] at h
      omega

/-- Witness for claim C5 at concrete inputs. -/
theorem accelerationToVelocity_spec_witness :
    (accelerationToVelocity [4, 6] 1).length = 2
    ∧ accelerationToVelocity [] 1 = [0] := by
  obtain ⟨h1, h2⟩ := accelerationToVelocity_spec
  exact ⟨(h1 [4, 6] 1 (by simp)).1, h2 [] 1 (by simp)⟩

lemma foldl_add_sq (l : List ℝ) : ∀ c : ℝ,
    l.foldl (fun sum val => sum + val * val) c = c + (l.map fun v => v * v).sum := by
  induction l with
  | nil => intro c; simp
  | cons x xs ih =>
    intro c
    simp only [List.foldl_cons, List.map_cons, List.sum_cons, ih]
    ring

/-- Claim C3: on a non-empty processed series the overall statistics of
prepareChartData satisfy rms = sqrt of the mean of the squared samples,
peak = rms / 0.707, and peak-to-peak = 2 * peak. -/
theorem overall_stats_spec (xs : List ℝ) (h : xs ≠ []) :
    overallRms xs = Real.sqrt ((xs.map fun v => v * v).sum / xs.length)
    ∧ overallPeak xs = overallRms xs / 0.707
    ∧ overallPeakToPeak xs = 2 * overallPeak xs := by
  refine ⟨?_, rfl, by unfold overallPeakToPeak; ring⟩
  unfold overallRms
  rw [if_pos (by simpa [List.length_pos] using h), foldl_add_sq]
  simp

/-- Witness for claim C3 at a concrete input. -/
theorem overall_stats_spec_witness :
    overallRms [(3 : ℝ)] = Real.sqrt ((([(3 : ℝ)]).map fun v => v * v).sum / ([(3 : ℝ)]).length)
    ∧ overallPeak [(3 : ℝ)] = overallRms [(3 : ℝ)] / 0.707
    ∧ overallPeakToPeak [(3 : ℝ)] = 2 * overallPeak [(3 : ℝ)] :=
  overall_stats_spec [3] (by simp)

/-- Claim C9: on an empty axis series prepareChartData does not fail and
returns the fallback record whose rms, peak and peak-to-peak values are
all the string "0.000" and whose top peak list is empty. -/
theorem prepareChartData_empty (selectedUnit : String) (timeInterval : ℝ) :
    prepareChartData [] selectedUnit timeInterval =
      some
        { rmsValue := "0.000", peakValue := "0.000", peakToPeakValue := "0.000"
          topPeaks := [], yAxisLabel := "No Data"
          processedData := [], freqLabels := [], freqMagnitude := [] } := by
  rfl

lemma nextPow2_eq_pow {n : ℕ} (h : n ≠ 0) : nextPow2 n = 2 ^ Nat.clog 2 n := by
  unfold nextPow2
  rw [if_neg h]

lemma two_le_nextPow2 {n : ℕ} (h : 2 ≤ n) : 2 ≤ nextPow2 n := by
  rw [nextPow2_eq_pow (by omega)]
  calc 2 = 2 ^ 1 := rfl
    _ ≤ 2 ^ Nat.clog 2 n := Nat.pow_le_pow_right (by norm_num) (Nat.clog_pos (by norm_num) h)

lemma le_nextPow2 {n : ℕ} (h : n ≠ 0) : n ≤ nextPow2 n := by
  rw [nextPow2_eq_pow h]
  exact Nat.le_pow_clog (by norm_num) n

lemma nextPow2_min {n k : ℕ} (h : n ≠ 0) (hk : n ≤ 2 ^ k) : nextPow2 n ≤ 2 ^ k := by
  rw [nextPow2_eq_pow h]
  exact Nat.pow_le_pow_right (by norm_num) ((Nat.le_pow_iff_clog_le (by norm_num)).mp hk)

lemma pow2_and_pred (k : ℕ) : 2 ^ k &&& (2 ^ k - 1) = 0 := by
  apply Nat.eq_of_testBit_eq
  intro i
  simp only [Nat.testBit_land, Nat.testBit_two_pow, Nat.testBit_two_pow_sub_one,
    Nat.zero_testBit, Bool.and_eq_false_iff]
  by_cases h : k = i
  · right
    simp [h]
  · left
    simp [h]

lemma calculateFFT_eq_some {s : List ℝ} (h : 2 ≤ s.length) :
    calculateFFT s =
      some
        ((List.range s.length).map fun i : ℕ =>
          2.56 / (s.length : ℝ) * Real.sqrt
            ((dftBin (s ++ List.replicate (nextPow2 s.length - s.length) 0)
                (nextPow2 s.length) i).1 ^ 2
              + (dftBin (s ++ List.replicate (nextPow2 s.length - s.length) 0)
                  (nextPow2 s.length) i).2 ^ 2),
         (List.range s.length).map fun i : ℕ => (i : ℝ) * SAMPLING_RATE / (s.length : ℝ)) := by
  have hpow := two_le_nextPow2 h
  rw [calculateFFT, if_neg]
  push_neg
  refine ⟨by omega, ?_⟩
  rw [nextPow2_eq_pow (by omega)]
  exact pow2_and_pred (Nat.clog 2 s.length)

lemma getD_map_range (g : ℕ → ℝ) (n i : ℕ) (h : i < n) :
    ((List.range n).map g).getD i 0 = g i := by
  rw [List.getD_eq_getElem _ _ (by simpa using h)]
  simp

/-- Claim C2 (code bug): calculateFFT applied to an empty series or to a
single-sample series does not return a spectrum at all: the padded size
is 0 or 1, which the fft.js constructor rejects, so the source throws
instead of returning the empty spectrum and the single DC bin the spec
requires. -/
theorem calculateFFT_degenerate_throws :
    calculateFFT ([] : List ℝ) = none ∧ calculateFFT [(5 : ℝ)] = none := by
  constructor
  · rw [calculateFFT, if_pos]
    left
    simp [nextPow2]
  · rw [calculateFFT, if_pos]
    left
    simp [nextPow2, Nat.clog_one_right]

/-- Counterexample to claim C1 as stated: on the non-empty single-sample
series [1] calculateFFT does not return one (frequency, magnitude) pair;
the fft.js constructor rejects the padded size 1 and the call throws. -/
theorem calculateFFT_single_sample_fails :
    ¬ ∃ m f : List ℝ, calculateFFT [(1 : ℝ)] = some (m, f) ∧ m.length = 1 := by
  rintro ⟨m, f, hsome, -⟩
  have hnone : calculateFFT [(1 : ℝ)] = none := by
    rw [calculateFFT, if_pos]
    left
    simp [nextPow2, Nat.clog_one_right]
  rw [hnone] at hsome
  exact Option.noConfusion hsome

/-- Claim C1 (amended to series of length at least 2): calculateFFT zero
pads the series to the smallest power of two at least its length n,
transforms, and returns exactly n pairs, never paddedLength / 2, with
magnitude[i] = (2.56 / n) * |bin i| and frequency[i] = i * rate / n. -/
theorem calculateFFT_padded_spec (s : List ℝ) (h : 2 ≤ s.length) :
    ∃ m f : List ℝ,
      calculateFFT s = some (m, f)
      ∧ m.length = s.length ∧ f.length = s.length
      ∧ s.length ≤ nextPow2 s.length
      ∧ (∃ k : ℕ, nextPow2 s.length = 2 ^ k)
      ∧ (∀ k : ℕ, s.length ≤ 2 ^ k → nextPow2 s.length ≤ 2 ^ k)
      ∧ ∀ i : ℕ, i < s.length →
          m.getD i 0
            = 2.56 / (s.length : ℝ) * Real.sqrt
                ((dftBin (s ++ List.replicate (nextPow2 s.length - s.length) 0)
                    (nextPow2 s.length) i).1 ^ 2
                  + (dftBin (s ++ List.replicate (nextPow2 s.length - s.length) 0)
                      (nextPow2 s.length) i).2 ^ 2)
          ∧ f.getD i 0 = (i : ℝ) * SAMPLING_RATE / (s.length : ℝ) := by
  refine ⟨_, _, calculateFFT_eq_some h, by simp, by simp, le_nextPow2 (by omega),
    ⟨Nat.clog 2 s.length, nextPow2_eq_pow (by omega)⟩,
    fun k hk => nextPow2_min (by omega) hk, ?_⟩
  intro i hi
  rw [getD_map_range _ _ _ hi, getD_map_range _ _ _ hi]
  exact ⟨rfl, rfl⟩

/-- Witness for claim C1 (amended) at a concrete input. -/
theorem calculateFFT_padded_spec_witness :
    ∃ m f : List ℝ, calculateFFT [1, 0] = some (m, f) ∧ m.length = 2 := by
  obtain ⟨m, f, h1, h2, -⟩ := calculateFFT_padded_spec [1, 0] (by simp)
  exact ⟨m, f, h1, by simpa using h2⟩

/-- Counterexample to claim C8 as stated: on the series [0, 0, 0, 0] the
retained spectrum contains the frequency 37.5 Hz, strictly above the
Nyquist frequency 25 Hz; the source keeps n bins rather than
paddedLength / 2, so frequencies beyond Nyquist are retained. -/
theorem calculateFFT_exceeds_nyquist :
    ∃ m f : List ℝ,
      calculateFFT [(0 : ℝ), 0, 0, 0] = some (m, f)
      ∧ ∃ x ∈ f, SAMPLING_RATE / 2 < x := by
  refine ⟨_, _, calculateFFT_eq_some (by simp), ?_⟩
  refine ⟨((3 : ℕ) : ℝ) * SAMPLING_RATE / ((List.length [(0 : ℝ), 0, 0, 0] : ℕ) : ℝ), ?_, ?_⟩
  · exact List.mem_map.mpr ⟨3, by simp, rfl⟩
  · norm_num [SAMPLING_RATE]

/-- Claim C8 (amended to series of length at least 2, with the bound
weakened from the Nyquist frequency to the sampling rate): the spectrum
is a sequence of pairs whose frequencies are strictly increasing from 0
and strictly below the sampling rate, with all magnitudes non-negative. -/
theorem calculateFFT_spectrum_invariants (s : List ℝ) (h : 2 ≤ s.length) :
    ∃ m f : List ℝ,
      calculateFFT s = some (m, f)
      ∧ f.getD 0 0 = 0
      ∧ f.Pairwise (· < ·)
      ∧ (∀ x ∈ f, x < SAMPLING_RATE)
      ∧ ∀ x ∈ m, 0 ≤ x := by
  have hn : (0 : ℝ) < s.length := by
    have : 0 < s.length := by omega
    exact_mod_cast this
  have hrate : (0 : ℝ) < SAMPLING_RATE := by norm_num [SAMPLING_RATE]
  refine ⟨_, _, calculateFFT_eq_some h, ?_, ?_, ?_, ?_⟩
  · rw [getD_map_range _ _ _ (by omega)]
    simp
  · refine List.Pairwise.map _ ?_ (List.pairwise_lt_range s.length)
    intro a b hab
    have ha : (a : ℝ) < b := by exact_mod_cast hab
    exact div_lt_div_of_pos_right (by nlinarith) hn
  · intro x hx
    obtain ⟨i, hi, rfl⟩ := List.mem_map.mp hx
    rw [List.mem_range] at hi
    have hilt : (i : ℝ) < s.length := by exact_mod_cast hi
    rw [div_lt_iff₀ hn]
    nlinarith
  · intro x hx
    obtain ⟨i, hi, rfl⟩ := List.mem_map.mp hx
    have : (0 : ℝ) ≤ s.length := by positivity
    positivity

/-- Witness for claim C8 (amended) at a concrete input. -/
theorem calculateFFT_spectrum_invariants_witness :
    ∃ m f : List ℝ,
      calculateFFT [0, 5] = some (m, f) ∧ ∀ x ∈ m, 0 ≤ x := by
  obtain ⟨m, f, h1, -, -, -, h5⟩ := calculateFFT_spectrum_invariants [0, 5] (by simp)
  exact ⟨m, f, h1, h5⟩

/-- Order the stable magnitude-descending index sort produces: an earlier
entry has strictly larger key, or an equal key and a smaller original
index. -/
def keyOrder (key : ℕ → ℝ) (a b : ℕ) : Prop :=
  key b < key a ∨ (key a = key b ∧ a < b)

lemma length_insertIdxDesc (key : ℕ → ℝ) (x : ℕ) :
    ∀ l : List ℕ, (insertIdxDesc key x l).length = l.length + 1
  | [] => rfl
  | y :: ys => by
    rw [insertIdxDesc]
    split_ifs
    · simp
    · simp [length_insertIdxDesc key x ys]

lemma mem_insertIdxDesc (key : ℕ → ℝ) (x z : ℕ) :
    ∀ l : List ℕ, z ∈ insertIdxDesc key x l ↔ z = x ∨ z ∈ l
  | [] => by simp [insertIdxDesc]
  | y :: ys => by
    rw [insertIdxDesc]
    split_ifs
    · simp [List.mem_cons]
    · simp [List.mem_cons, mem_insertIdxDesc key x z ys]
      tauto

lemma pairwise_insertIdxDesc (key : ℕ → ℝ) (x : ℕ) :
    ∀ l : List ℕ, l.Pairwise (keyOrder key) → (∀ y ∈ l, y < x) →
      (insertIdxDesc key x l).Pairwise (keyOrder key)
  | [], _, _ => by simp [insertIdxDesc]
  | y :: ys, hp, hlt => by
    have hp' := List.pairwise_cons.mp hp
    rw [insertIdxDesc]
    split_ifs with hkey
    · rw [List.pairwise_cons]
      refine ⟨?_, hp⟩
      intro z hz
      rcases List.mem_cons.mp hz with rfl | hz2
      · exact Or.inl hkey
      · rcases hp'.1 z hz2 with h1 | h2
        · exact Or.inl (h1.trans hkey)
        · exact Or.inl (h2.1 ▸ hkey)
    · rw [List.pairwise_cons]
      refine ⟨?_, pairwise_insertIdxDesc key x ys hp'.2
        (fun z hz => hlt z (List.mem_cons_of_mem y hz))⟩
      intro z hz
      rcases (mem_insertIdxDesc key x z ys).mp hz with rfl | hz2
      · rcases lt_or_eq_of_le (not_lt.mp hkey) with hlt2 | heq
        · exact Or.inl hlt2
        · exact Or.inr ⟨heq.symm, hlt y (List.mem_cons_self y ys)⟩
      · exact hp'.1 z hz2

lemma sortIdx_foldl (key : ℕ → ℝ) :
    ∀ (l acc : List ℕ), l.Pairwise (· < ·) → acc.Pairwise (keyOrder key) →
      (∀ y ∈ acc, ∀ x ∈ l, y < x) →
      (l.foldl (fun acc x => insertIdxDesc key x acc) acc).Pairwise (keyOrder key)
      ∧ (l.foldl (fun acc x => insertIdxDesc key x acc) acc).length = acc.length + l.length
      ∧ ∀ z ∈ l.foldl (fun acc x => insertIdxDesc key x acc) acc, z ∈ acc ∨ z ∈ l
  | [], acc, _, hacc, _ => ⟨hacc, by simp, fun z hz => Or.inl hz⟩
  | x :: l, acc, hl, hacc, hcross => by
    simp only [List.foldl_cons]
    have hl' := List.pairwise_cons.mp hl
    have hacc2 : (insertIdxDesc key x acc).Pairwise (keyOrder key) :=
      pairwise_insertIdxDesc key x acc hacc
        (fun y hy => hcross y hy x (List.mem_cons_self x l))
    have hcross2 : ∀ y ∈ insertIdxDesc key x acc, ∀ z ∈ l, y < z := by
      intro y hy z hz
      rcases (mem_insertIdxDesc key x y acc).mp hy with rfl | hy2
      · exact hl'.1 z hz
      · exact hcross y hy2 z (List.mem_cons_of_mem x hz)
    obtain ⟨p1, p2, p3⟩ := sortIdx_foldl key l (insertIdxDesc key x acc) hl'.2 hacc2 hcross2
    refine ⟨p1, ?_, ?_⟩
    · rw [p2, length_insertIdxDesc]
      simp only [List.length_cons]
      omega
    · intro z hz
      rcases p3 z hz with hz2 | hz2
      · rcases (mem_insertIdxDesc key x z acc).mp hz2 with rfl | hz3
        · exact Or.inr (List.mem_cons_self _ _)
        · exact Or.inl hz3
      · exact Or.inr (List.mem_cons_of_mem x hz2)

lemma sortIdxDesc_spec (key : ℕ → ℝ) (n : ℕ) :
    (sortIdxDesc key (List.range n)).Pairwise (keyOrder key)
    ∧ (sortIdxDesc key (List.range n)).length = n
    ∧ ∀ z ∈ sortIdxDesc key (List.range n), z < n := by
  obtain ⟨p1, p2, p3⟩ :=
    sortIdx_foldl key (List.range n) [] (List.pairwise_lt_range n) (by simp) (by simp)
  refine ⟨p1, by simpa using p2, ?_⟩
  intro z hz
  rcases p3 z hz with h | h
  · simp at h
  · exact List.mem_range.mp h

lemma getD_drop_one (l : List ℝ) (i : ℕ) : (l.drop 1).getD i 0 = l.getD (i + 1) 0 := by
  cases l with
  | nil => simp
  | cons a t => simp [List.getD_cons_succ]

/-- Claim C4: for every spectrum the top peak table excludes the DC bin,
has length exactly min 5 (length - 1), lists entries by non-increasing
magnitude with ties kept in original bin order, and each entry reports
the frequency of its bin and toFixed 2 of its magnitude times 0.707. -/
theorem topPeaksOf_spec (magnitude frequency : List ℝ)
    (h : frequency.length = magnitude.length) :
    ∃ idxs : List ℕ,
      topPeaksOf magnitude frequency
        = idxs.map (fun i =>
            { peak := magnitude.getD (i + 1) 0
              rms := toFixed 2 (magnitude.getD (i + 1) 0 * 0.707)
              frequency := frequency.getD (i + 1) 0 : TopPeak })
      ∧ idxs.length = min 5 (magnitude.length - 1)
      ∧ (∀ i ∈ idxs, i + 1 < magnitude.length ∧ i + 1 < frequency.length)
      ∧ idxs.Pairwise (fun a b =>
          magnitude.getD (b + 1) 0 < magnitude.getD (a + 1) 0
          ∨ (magnitude.getD (a + 1) 0 = magnitude.getD (b + 1) 0 ∧ a < b))
      ∧ (topPeaksOf magnitude frequency).Pairwise (fun p q => q.peak ≤ p.peak) := by
  unfold topPeaksOf
  by_cases hm : 0 < (magnitude.drop 1).length
  · rw [if_pos hm]
    set key : ℕ → ℝ := fun i => (magnitude.drop 1).getD i 0 with hkey
    obtain ⟨s1, s2, s3⟩ := sortIdxDesc_spec key (magnitude.drop 1).length
    set idxs := (sortIdxDesc key (List.range (magnitude.drop 1).length)).take 5 with hidxs
    have hsub : idxs.Sublist (sortIdxDesc key (List.range (magnitude.drop 1).length)) :=
      List.take_sublist 5 _
    have hmemn : ∀ i ∈ idxs, i < (magnitude.drop 1).length :=
      fun i hi => s3 i (List.mem_of_mem_take hi)
    have hpair : idxs.Pairwise (keyOrder key) := List.Pairwise.sublist hsub s1
    have hdlen : (magnitude.drop 1).length = magnitude.length - 1 := List.length_drop 1 magnitude
    refine ⟨idxs, ?_, ?_, ?_, ?_, ?_⟩
    · apply List.map_congr_left
      intro i hi
      simp only [getD_drop_one]
    · rw [hidxs, List.length_take, s2, hdlen]
    · intro i hi
      have := hmemn i hi
      constructor
      · omega
      · rw [h]
        omega
    · refine hpair.imp ?_
      intro a b hab
      rcases hab with h1 | h2
      · exact Or.inl (by simpa only [hkey, getD_drop_one] using h1)
      · exact Or.inr ⟨by simpa only [hkey, getD_drop_one] using h2.1, h2.2⟩
    · rw [List.pairwise_map]
      refine hpair.imp ?_
      intro a b hab
      rcases hab with h1 | h2
      · exact h1.le
      · exact h2.1.ge
  · rw [if_neg hm]
    refine ⟨[], by simp, ?_, by simp, by simp, by simp⟩
    simp only [List.length_drop] at hm
    simp only [List.length_nil]
    omega

/-- Witness for claim C4 at a concrete spectrum. -/
theorem topPeaksOf_spec_witness :
    ∃ idxs : List ℕ,
      idxs.length = min 5 ((List.length [(0 : ℝ), 3, 1, 3, 5]) - 1)
      ∧ ∀ i ∈ idxs, i + 1 < List.length [(0 : ℝ), 3, 1, 3, 5] := by
  obtain ⟨idxs, -, h2, h3, -, -⟩ :=
    topPeaksOf_spec [0, 3, 1, 3, 5] [0, 10, 20, 30, 40] rfl
  exact ⟨idxs, h2, fun i hi => (h3 i hi).1⟩

end Vibration
